import Mathlib

/-!
Verification of the task-execution slice of the AlanForVSCode extension
(`src/tasks.ts`): shell resolution, path conversion between host and
interpreter syntax, project-root location, the diagnostic output parser of
`executeCommand`, and the task catalog builder.

Strings from the TypeScript source are modelled as `List Char`.  JavaScript
regular-expression matching (anchored, greedy, backtracking) is embedded by
explicit parsing functions whose greedy choice of the `.*` group is realised
by trying the longest capture first (`greedyFind`).
-/

set_option maxHeartbeats 1000000

namespace AlanTasks

/-- Generic prefix test on character lists (needle, haystack). -/
def isPre : List Char → List Char → Bool
  | [], _ => true
  | _ :: _, [] => false
  | c :: p, d :: h => c = d && isPre p h

/-- Suffix test on character lists (needle, haystack). -/
def isSuf (needle hay : List Char) : Bool :=
  isPre needle.reverse hay.reverse

/-- Substring-occurrence test (needle occurs contiguously in haystack). -/
def seqIn (needle : List Char) : List Char → Bool
  | [] => isPre needle []
  | c :: t => isPre needle (c :: t) || seqIn needle t

/-! ## Shell constants and path conversion (tasks.ts lines 10-30) -/

/-- `const wsl = 'C:\\Windows\\System32\\wsl.exe'` -/
def wsl : List Char := "C:\\Windows\\System32\\wsl.exe".data

/-- `const wsl_bash = 'C:\\Windows\\System32\\bash.exe'` -/
def wsl_bash : List Char := "C:\\Windows\\System32\\bash.exe".data

/-- `const git_bash_x64 = 'C:\\Program Files\\Git\\bin\\bash.exe'` -/
def git_bash_x64 : List Char := "C:\\Program Files\\Git\\bin\\bash.exe".data

/-- `const git_bash_x32 = 'C:\\Program Files (x86)\\Git\\bin\\bash.exe'` -/
def git_bash_x32 : List Char := "C:\\Program Files (x86)\\Git\\bin\\bash.exe".data

/-- `const linux_osx_bash = '/bin/bash'` -/
def linux_osx_bash : List Char := "/bin/bash".data

/-- `function isWsl(shell) { return shell == wsl_bash; }` -/
def isWsl (shell : List Char) : Bool := shell == wsl_bash

/-- First-occurrence replacement of `/([a-zA-Z]):/`: a letter followed by a
colon is rewritten to `/mnt/<letter>` when `w` (WSL) and to `<letter>:`
(identity text) otherwise; only the leftmost occurrence is rewritten,
matching a JavaScript `String.replace` with a non-global regex. -/
def driveRepl (w : Bool) : List Char → List Char
  | [] => []
  | [a] => [a]
  | a :: b :: rest =>
    if a.isAlpha ∧ b = ':' then
      if w then '/' :: 'm' :: 'n' :: 't' :: '/' :: a :: rest
      else a :: ':' :: rest
    else a :: driveRepl w (b :: rest)

/-- Global replacement `.replace(/\\/g, '/')`. -/
def toSlashes (s : List Char) : List Char :=
  s.map (fun c => if c = '\\' then '/' else c)

/-- Global replacement `.replace(/ /g, '\\ ')`. -/
def escSpaces : List Char → List Char
  | [] => []
  | c :: rest => if c = ' ' then '\\' :: ' ' :: escSpaces rest else c :: escSpaces rest

/-- `pathToBashPath` (tasks.ts lines 19-24): drive rewrite, then backslash
conversion, then space escaping. -/
def pathToBashPath (path shell : List Char) : List Char :=
  escSpaces (toSlashes (driveRepl (isWsl shell) path))

/-- Global replacement `.replace(/\/mnt\/([a-z])\//g, '$1:/')`, scanning left
to right, advancing one character after a failed match attempt and past the
whole consumed text after a successful one. -/
def bashMnt : List Char → List Char
  | [] => []
  | '/' :: 'm' :: 'n' :: 't' :: '/' :: c :: '/' :: rest =>
    if c.isLower then c :: ':' :: '/' :: bashMnt rest
    else '/' :: bashMnt ('m' :: 'n' :: 't' :: '/' :: c :: '/' :: rest)
  | c :: rest => c :: bashMnt rest

/-- `bashPathsToWinPaths` (tasks.ts lines 25-30): rewrites `/mnt/<letter>/`
back to `<letter>:/` under the WSL shell, identity otherwise. -/
def bashPathsToWinPaths (s shell : List Char) : List Char :=
  if isWsl shell then bashMnt s else s

/-! ## Diagnostics data model -/

/-- A `vscode.Range` as constructed by the parser: four coordinates, kept as
integers because the source subtracts 1 from `parseInt` results. -/
structure Range where
  startLine : Int
  startCol : Int
  endLine : Int
  endCol : Int
  deriving DecidableEq

/-- `vscode.DiagnosticSeverity` values used by the parser. -/
inductive DiagnosticSeverity
  | Error
  | Warning
  | Information
  deriving DecidableEq

/-- A `vscode.Diagnostic` as constructed by the parser:
`new vscode.Diagnostic(range, message, severity)`. -/
structure Diagnostic where
  range : Range
  message : List Char
  severity : DiagnosticSeverity
  deriving DecidableEq

/-- `getSeverity` (tasks.ts lines 92-96): `error` maps to Error, `warning`
to Warning, anything else to Information. -/
def getSeverity (severity : List Char) : DiagnosticSeverity :=
  if severity = "error".data then .Error
  else if severity = "warning".data then .Warning
  else .Information

/-! ## The four line patterns of the output parser

Each regex `^((?:\/|[a-zA-Z]:).*\.alan) ...` is embedded as: a check that a
candidate capture for group 1 starts with `/` or a letter-colon and ends
with the extension (`g1Ok`), plus a deterministic parser for the remainder
of the pattern; the greedy `.*` inside group 1 is realised by trying the
longest candidate capture first. -/

/-- Length consumed by the alternation `(?:\/|[a-zA-Z]:)` at the start of
group 1, if it matches. -/
def startLen (g : List Char) : Option Nat :=
  match g with
  | [] => none
  | c :: rest =>
    if c = '/' then some 1
    else if c.isAlpha ∧ rest.head? = some ':' then some 2 else none

/-- Whether `g` is a valid group-1 capture for `(?:\/|[a-zA-Z]:).*\.<ext>`:
it starts with the alternation, ends with the extension (which must fit
after the alternation), and contains no newline (`.` does not match one). -/
def g1Ok (ext g : List Char) : Bool :=
  match startLen g with
  | some n => decide (n + ext.length ≤ g.length) && isSuf ext g && !(g.any (· == '\n'))
  | none => false

/-- `parseInt(s, 10)` restricted to all-digit captures of `([0-9]+)`. -/
def parseIntDec (s : List Char) : Nat :=
  s.foldl (fun acc c => 10 * acc + (c.toNat - '0'.toNat)) 0

/-- Strip a literal prefix, returning the remainder. -/
def dropPre : List Char → List Char → Option (List Char)
  | [], s => some s
  | _ :: _, [] => none
  | c :: p, d :: h => if c = d then dropPre p h else none

/-- Greedy `([0-9]+)`: the maximal leading digit run and the remainder. -/
def digitSpan : List Char → List Char × List Char
  | [] => ([], [])
  | c :: rest =>
    if c.isDigit then
      let (a, b) := digitSpan rest
      (c :: a, b)
    else ([], c :: rest)

/-- `([0-9]+)` as a parser: fails on an empty digit run. -/
def parseNum (s : List Char) : Option (List Char × List Char) :=
  let (ds, rest) := digitSpan s
  if ds = [] then none else some (ds, rest)

/-- The alternation `(error|warning|info)`, tried in source order. -/
def parseSev (s : List Char) : Option (List Char × List Char) :=
  match dropPre "error".data s with
  | some r => some ("error".data, r)
  | none =>
    match dropPre "warning".data s with
    | some r => some ("warning".data, r)
    | none =>
      match dropPre "info".data s with
      | some r => some ("info".data, r)
      | none => none

/-- The trailing greedy `(.*)`: everything up to a newline or the end. -/
def dotStar : List Char → List Char
  | [] => []
  | c :: rest => if c = '\n' then [] else c :: dotStar rest

/-- Remainder of `re_range` after group 1 (tasks.ts lines 98-114):
` from <l>:<c> to <l>:<c> <sev>: <msg>`, building the Diagnostic with
each 1-based coordinate decremented. -/
def parseRangeRest (s : List Char) : Option Diagnostic := do
  let s ← dropPre " from ".data s
  let (d1, s) ← parseNum s
  let s ← dropPre [':'] s
  let (d2, s) ← parseNum s
  let s ← dropPre " to ".data s
  let (d3, s) ← parseNum s
  let s ← dropPre [':'] s
  let (d4, s) ← parseNum s
  let s ← dropPre [' '] s
  let (sev, s) ← parseSev s
  let s ← dropPre [':', ' '] s
  some ⟨⟨(parseIntDec d1 : Int) - 1, (parseIntDec d2 : Int) - 1,
         (parseIntDec d3 : Int) - 1, (parseIntDec d4 : Int) - 1⟩,
        dotStar s, getSeverity sev⟩

/-- Remainder of `re_locat` after group 1 (tasks.ts lines 117-131):
` at <l>:<c> <sev>: <msg>`, producing a collapsed range. -/
def parseLocatRest (s : List Char) : Option Diagnostic := do
  let s ← dropPre " at ".data s
  let (d1, s) ← parseNum s
  let s ← dropPre [':'] s
  let (d2, s) ← parseNum s
  let s ← dropPre [' '] s
  let (sev, s) ← parseSev s
  let s ← dropPre [':', ' '] s
  some ⟨⟨(parseIntDec d1 : Int) - 1, (parseIntDec d2 : Int) - 1,
         (parseIntDec d1 : Int) - 1, (parseIntDec d2 : Int) - 1⟩,
        dotStar s, getSeverity sev⟩

/-- Remainder of `re_link` and `re_other` after group 1 (tasks.ts lines
134-162): ` <sev>: <msg>`, producing the zero range. -/
def parseSimpleRest (s : List Char) : Option Diagnostic := do
  let s ← dropPre [' '] s
  let (sev, s) ← parseSev s
  let s ← dropPre [':', ' '] s
  some ⟨⟨0, 0, 0, 0⟩, dotStar s, getSeverity sev⟩

/-- One attempt of a pattern with group 1 bound to the first `k` characters
of the line. -/
def matchAlanAt (ext : List Char) (parseRest : List Char → Option Diagnostic)
    (line : List Char) (k : Nat) : Option (List Char × Diagnostic) :=
  if g1Ok ext (line.take k) then
    (parseRest (line.drop k)).map (fun d => (line.take k, d))
  else none

/-- Backtracking order of the greedy `.*` in group 1: longest first. -/
def greedyFind {α : Type} (f : Nat → Option α) : Nat → Option α
  | 0 => f 0
  | k + 1 =>
    match f (k + 1) with
    | some r => some r
    | none => greedyFind f k

/-- `line.match(re)` for one of the four diagnostic patterns, returning the
group-1 capture (the file path) and the constructed Diagnostic. -/
def matchPat (ext : List Char) (parseRest : List Char → Option Diagnostic)
    (line : List Char) : Option (List Char × Diagnostic) :=
  greedyFind (matchAlanAt ext parseRest line) line.length

/-- `line.startsWith('\t')`. -/
def tabStart (l : List Char) : Bool := l.head? == some '\t'

/-- Append a continuation line to the most recently created Diagnostic:
`current_diagnostic.message += '\n' + line` (tasks.ts line 165); the
aliased `current_diagnostic` is always the last entry pushed onto
`diagnostics`. -/
def appendToLast (diags : List (List Char × Diagnostic)) (line : List Char) :
    List (List Char × Diagnostic) :=
  match diags with
  | [] => []
  | [fd] => [(fd.1, { fd.2 with message := fd.2.message ++ '\n' :: line })]
  | fd :: rest => fd :: appendToLast rest line

/-- The body of `lines.forEach` (tasks.ts lines 91-167): try the four
patterns in priority order, pushing `[file, [diagnostic]]` on a match;
otherwise append tab-led lines to the current diagnostic when one exists. -/
def scanStep (diags : List (List Char × Diagnostic)) (line : List Char) :
    List (List Char × Diagnostic) :=
  match matchPat ".alan".data parseRangeRest line with
  | some fd => diags ++ [fd]
  | none =>
  match matchPat ".alan".data parseLocatRest line with
  | some fd => diags ++ [fd]
  | none =>
  match matchPat ".link".data parseSimpleRest line with
  | some fd => diags ++ [fd]
  | none =>
  match matchPat ".alan".data parseSimpleRest line with
  | some fd => diags ++ [fd]
  | none =>
    if !diags.isEmpty && tabStart line then appendToLast diags line
    else diags

/-- The whole output-parser scan over the split lines, top to bottom once. -/
def scanLines (lines : List (List Char)) : List (List Char × Diagnostic) :=
  lines.foldl scanStep []

/-- `output_acc.split('\n')`. -/
def splitNl : List Char → List (List Char)
  | [] => [[]]
  | '\n' :: rest => [] :: splitNl rest
  | c :: rest =>
    match splitNl rest with
    | [] => [[c]]
    | l :: ls => (c :: l) :: ls

/-- The accumulated-output parser run on process close (tasks.ts lines
85-171): split on newlines and scan. -/
def parseOutput (acc : List Char) : List (List Char × Diagnostic) :=
  scanLines (splitNl acc)

/-- Whether any of the four diagnostic patterns matches a line. -/
def matchesAnyPat (line : List Char) : Bool :=
  (matchPat ".alan".data parseRangeRest line).isSome ||
  (matchPat ".alan".data parseLocatRest line).isSome ||
  (matchPat ".link".data parseSimpleRest line).isSome ||
  (matchPat ".alan".data parseSimpleRest line).isSome

/-! ## Project-root locator (tasks.ts lines 257-272)

Directories are modelled as segment lists of an absolute path; the
filesystem root computed by `path.parse(file_dir).root` is `[]`, and
`path.dirname` drops the last segment.  The filesystem is abstracted by the
predicate `hasAlan d`, the result of `exists(path.join(d, 'alan'))`. -/

/-- `resolveAlanRoot`: reject at the filesystem root, recurse on the parent
while the `alan` marker is missing, resolve otherwise. -/
def resolveAlanRoot (hasAlan : List (List Char) → Bool) (file_dir : List (List Char)) :
    Except Unit (List (List Char)) :=
  if h : file_dir = [] then .error ()
  else if hasAlan file_dir = false then resolveAlanRoot hasAlan file_dir.dropLast
  else .ok file_dir
termination_by file_dir.length
decreasing_by
  have : file_dir.length ≠ 0 := fun hz => h (List.eq_nil_of_length_eq_zero hz)
  simp only [List.length_dropLast]
  omega

/-! ## Shell resolver (tasks.ts lines 38-57) -/

/-- Result of `resolveBashShell`: the chosen interpreter (or `undefined`)
and whether the error notification was shown. -/
structure ShellResolution where
  shell : Option (List Char)
  errorShown : Bool
  deriving DecidableEq

/-- Truthiness of the `taskShell` configuration value, as tested by
`if (shell && shell !== null && shell !== '')`. -/
def truthyString : Option (List Char) → Bool
  | some s => !s.isEmpty
  | none => false

/-- `resolveBashShell`: an explicit non-empty configured shell wins; on
win32 probe `wsl.exe` (answering `wsl_bash`), then the two Git-bash
locations, showing an error and returning `undefined` when all fail; on
other platforms answer `/bin/bash`. -/
def resolveBashShell (config : Option (List Char)) (platform : List Char)
    (fsExists : List Char → Bool) : ShellResolution :=
  if truthyString config then ⟨config, false⟩
  else if platform = "win32".data then
    if fsExists wsl then ⟨some wsl_bash, false⟩
    else if fsExists git_bash_x64 then ⟨some git_bash_x64, false⟩
    else if fsExists git_bash_x32 then ⟨some git_bash_x32, false⟩
    else ⟨none, true⟩
  else ⟨some linux_osx_bash, false⟩

/-! ## Task catalog builder (tasks.ts lines 274-336) -/

/-- The `{type, task}` definition object of a `vscode.Task`. -/
structure TaskDefinition where
  type : List Char
  task : List Char
  deriving DecidableEq

/-- A task descriptor as assembled by `getTasksList`. -/
structure TaskDesc where
  definition : TaskDefinition
  name : List Char
  source : List Char
  commandLine : List Char
  cwd : List Char
  deriving DecidableEq

/-- `path.basename` for the active file name (POSIX separators): the part
after the last `/`. -/
def basename (s : List Char) : List Char :=
  s.foldl (fun acc c => if c = '/' then [] else acc ++ [c]) []

/-- `getTasksList`: empty without a workspace root or when root resolution
throws; otherwise fetch, build and generate-migration always, plus the
package task exactly when the active file's basename is
`connections.alan`. -/
def getTasksList (workspace_root : Option (List Char)) (shell : List Char)
    (active_file_name : List Char) (alan_root : Except Unit (List Char)) :
    List TaskDesc :=
  match workspace_root with
  | none => []
  | some _ =>
    match alan_root with
    | .error _ => []
    | .ok root =>
      let alan_root_folder := pathToBashPath root shell
      let alan := pathToBashPath (root ++ "/alan".data) shell
      let fetch_task : TaskDesc :=
        ⟨⟨"alan".data, "fetch".data⟩, "fetch".data, "alan".data,
          alan ++ " fetch".data, "$\x7bfileDirname\x7d".data⟩
      let build_task : TaskDesc :=
        ⟨⟨"alan".data, "build".data⟩, "build".data, "alan".data,
          "$\x7bcommand:alan.tasks.build\x7d".data, "$\x7bfileDirname\x7d".data⟩
      let migration_task : TaskDesc :=
        ⟨⟨"alan".data, "generate migration".data⟩, "generate migration".data,
          "alan".data, "$\x7bcommand:alan.tasks.generateMigration\x7d".data,
          "$\x7bfileDirname\x7d".data⟩
      [fetch_task, build_task, migration_task] ++
        (if basename active_file_name = "connections.alan".data then
          [⟨⟨"alan".data, "package".data⟩, "package".data, "alan".data,
            "$\x7bcommand:alan.tasks.package\x7d".data, alan_root_folder⟩]
        else [])

/-! ## Utility lemmas -/

theorem isPre_iff (n h : List Char) : isPre n h = true ↔ ∃ v, h = n ++ v := by
  induction n generalizing h with
  | nil => simp [isPre]
  | cons c p ih =>
    cases h with
    | nil => simp [isPre]
    | cons d t =>
      simp only [isPre, Bool.and_eq_true, decide_eq_true_eq, ih, List.cons_append,
        List.cons.injEq]
      constructor
      · rintro ⟨rfl, v, rfl⟩; exact ⟨v, rfl, rfl⟩
      · rintro ⟨v, rfl, rfl⟩; exact ⟨rfl, v, rfl⟩

theorem isSuf_iff (n h : List Char) : isSuf n h = true ↔ ∃ u, h = u ++ n := by
  rw [isSuf, isPre_iff]
  constructor
  · rintro ⟨v, hv⟩
    refine ⟨v.reverse, ?_⟩
    have := congrArg List.reverse hv
    simpa using this
  · rintro ⟨u, rfl⟩
    exact ⟨u.reverse, by simp⟩

theorem seqIn_of_decomp (n u v hay : List Char) (hd : hay = u ++ n ++ v) :
    seqIn n hay = true := by
  subst hd
  induction u with
  | nil =>
    cases hn : n ++ v with
    | nil => simpa [seqIn, hn] using (isPre_iff n []).mpr ⟨v, by simp [← hn]⟩
    | cons c t =>
      simp only [List.nil_append, hn, seqIn, Bool.or_eq_true]
      exact Or.inl ((isPre_iff n (c :: t)).mpr ⟨v, by simp [← hn]⟩)
  | cons c u ih =>
    simp only [List.cons_append, seqIn, Bool.or_eq_true]
    exact Or.inr ih

theorem dropPre_append (p s : List Char) : dropPre p (p ++ s) = some s := by
  induction p with
  | nil => rfl
  | cons c p ih => simp [dropPre, ih]

theorem dropPre_cons_ne (c d : Char) (p h : List Char) (hne : c ≠ d) :
    dropPre (c :: p) (d :: h) = none := by
  simp [dropPre, hne]

theorem digitSpan_append (ds : List Char) (c : Char) (r : List Char)
    (hds : ∀ x ∈ ds, x.isDigit = true) (hc : c.isDigit = false) :
    digitSpan (ds ++ c :: r) = (ds, c :: r) := by
  induction ds with
  | nil => simp [digitSpan, hc]
  | cons d ds ih =>
    have hd : d.isDigit = true := hds d (by simp)
    have ih' := ih (fun x hx => hds x (by simp [hx]))
    simp [digitSpan, hd, ih']

theorem parseNum_append (ds : List Char) (c : Char) (r : List Char)
    (hne : ds ≠ []) (hds : ∀ x ∈ ds, x.isDigit = true) (hc : c.isDigit = false) :
    parseNum (ds ++ c :: r) = some (ds, c :: r) := by
  simp [parseNum, digitSpan_append ds c r hds hc, hne]

theorem dotStar_eq_self (s : List Char) (h : '\n' ∉ s) : dotStar s = s := by
  induction s with
  | nil => rfl
  | cons c r ih =>
    have hc : c ≠ '\n' := fun he => h (he ▸ List.mem_cons_self c r)
    have hr : '\n' ∉ r := fun hm => h (List.mem_cons_of_mem c hm)
    simp [dotStar, hc, ih hr]

theorem escSpaces_eq_self (s : List Char) (h : ' ' ∉ s) : escSpaces s = s := by
  induction s with
  | nil => rfl
  | cons c r ih =>
    have hc : c ≠ ' ' := fun he => h (he ▸ List.mem_cons_self c r)
    have hr : ' ' ∉ r := fun hm => h (List.mem_cons_of_mem c hm)
    simp [escSpaces, hc, ih hr]

theorem greedyFind_eq_of {α : Type} (f : Nat → Option α) (n k0 : Nat) (v : α)
    (hk : k0 ≤ n) (hfail : ∀ k, k0 < k → k ≤ n → f k = none) (hs : f k0 = some v) :
    greedyFind f n = some v := by
  induction n with
  | zero =>
    have : k0 = 0 := Nat.le_zero.mp hk
    subst this
    simpa [greedyFind] using hs
  | succ n ih =>
    by_cases h : k0 = n + 1
    · subst h
      simp [greedyFind, hs]
    · have h1 : f (n + 1) = none := hfail (n + 1) (by omega) le_rfl
      have h2 := ih (by omega) (fun k hk1 hk2 => hfail k hk1 (by omega))
      simp [greedyFind, h1, h2]

theorem greedyFind_none {α : Type} (f : Nat → Option α) (n : Nat)
    (hfail : ∀ k, k ≤ n → f k = none) : greedyFind f n = none := by
  induction n with
  | zero => simpa [greedyFind] using hfail 0 le_rfl
  | succ n ih =>
    have h1 : f (n + 1) = none := hfail (n + 1) le_rfl
    have h2 := ih (fun k hk => hfail k (by omega))
    simp [greedyFind, h1, h2]

/-! ## Lemmas about group-1 candidates

For a line `path ++ mid ++ msg` whose `mid` part starts and ends with a
space, contains no `l`, and whose message contains no `.alan`, no group-1
candidate longer than `path` can end in `.alan`; this pins down the greedy
match. -/

theorem no_alan_suffix_take (path mid msg : List Char) (j : Nat)
    (hj : 1 ≤ j)
    (hhead : mid.head? = some ' ')
    (hlast : ∃ mA, mid = mA ++ [' '])
    (hl : 'l' ∉ mid)
    (hmsg : seqIn ".alan".data msg = false) :
    isSuf ".alan".data (path ++ (mid ++ msg).take j) = false := by
  cases hb : isSuf ".alan".data (path ++ (mid ++ msg).take j) with
  | false => rfl
  | true =>
    exfalso
    obtain ⟨u, hu⟩ := (isSuf_iff _ _).mp hb
    rw [List.take_append_eq_append_take] at hu
    rcases List.append_eq_append_iff.mp hu with ⟨w, _, hw2⟩ | ⟨w, _, hw2⟩
    · -- the needle lies inside the part taken from `mid ++ msg`
      rcases List.append_eq_append_iff.mp hw2 with ⟨x, _, hx2⟩ | ⟨x, hx1, hx2⟩
      · -- fully inside the part taken from `msg`: occurrence in `msg`
        have hdec : msg = x ++ ".alan".data ++ List.drop (j - mid.length) msg := by
          conv_lhs => rw [← List.take_append_drop (j - mid.length) msg]
          rw [hx2, List.append_assoc]
        rw [seqIn_of_decomp _ x _ msg hdec] at hmsg
        exact Bool.noConfusion hmsg
      · -- the needle ends in the taken-from-`msg` part or inside `mid`
        by_cases hT2 : List.take (j - mid.length) msg = []
        · -- needle entirely inside the part taken from `mid`: `l` in `mid`
          rw [hT2, List.append_nil] at hx2
          have hmem : 'l' ∈ List.take j mid := by
            rw [hx1, ← hx2]
            exact List.mem_append_right w (by decide)
          exact hl (List.take_subset j mid hmem)
        · have hjm : mid.length < j := by
            by_contra hle
            push_neg at hle
            apply hT2
            have hz : j - mid.length = 0 := by omega
            rw [hz]
            rfl
          have hmid : List.take j mid = mid := List.take_of_length_le (Nat.le_of_lt hjm)
          rw [hmid] at hx1
          by_cases hx : x = []
          · -- needle equals the taken-from-`msg` part: occurrence in `msg`
            rw [hx, List.nil_append] at hx2
            have hdec : msg = [] ++ ".alan".data ++ List.drop (j - mid.length) msg := by
              conv_lhs => rw [← List.take_append_drop (j - mid.length) msg]
              rw [← hx2, List.nil_append]
            rw [seqIn_of_decomp _ [] _ msg hdec] at hmsg
            exact Bool.noConfusion hmsg
          · -- needle straddles `mid` and `msg`: the final space of `mid`
            -- would be a character of `.alan`
            obtain ⟨mA, hmA⟩ := hlast
            rw [hmA] at hx1
            have hsp : ' ' ∈ x := by
              rcases List.append_eq_append_iff.mp hx1 with ⟨y, _, hy2⟩ | ⟨y, _, hy2⟩
              · cases y with
                | nil =>
                  rw [List.nil_append] at hy2
                  rw [← hy2]
                  simp
                | cons c ys =>
                  exfalso
                  apply hx
                  have hlen := congrArg List.length hy2
                  simp only [List.length_cons, List.length_append,
                    List.length_nil] at hlen
                  exact List.eq_nil_of_length_eq_zero (by omega)
              · rw [hy2]
                simp
            have : ' ' ∈ ".alan".data := by
              rw [hx2]
              exact List.mem_append_left _ hsp
            exact absurd this (by decide)
    · -- the needle extends left of the `mid ++ msg` part: then the first
      -- taken character, a space, lies inside `.alan`
      obtain ⟨mt, rfl⟩ : ∃ mt, mid = ' ' :: mt := by
        cases mid with
        | nil => simp at hhead
        | cons a t =>
          simp only [List.head?_cons, Option.some.injEq] at hhead
          exact ⟨t, by rw [hhead]⟩
      cases j with
      | zero => omega
      | succ j' =>
        rw [List.take_succ_cons] at hw2
        have : ' ' ∈ ".alan".data := by
          rw [hw2]
          simp
        exact absurd this (by decide)

theorem any_nl_false (s : List Char) (h : '\n' ∉ s) : s.any (· == '\n') = false := by
  induction s with
  | nil => rfl
  | cons c r ih =>
    have hc : c ≠ '\n' := fun he => h (he ▸ List.mem_cons_self c r)
    have hr := ih (fun hm => h (List.mem_cons_of_mem c hm))
    simp [List.any_cons, hr, hc]

theorem startLen_cases (g : List Char) (n : Nat) (h : startLen g = some n) :
    n = 1 ∨ n = 2 := by
  cases g with
  | nil => simp [startLen] at h
  | cons c rest =>
    simp only [startLen] at h
    split at h
    · exact Or.inl (Option.some.inj h).symm
    · split at h
      · exact Or.inr (Option.some.inj h).symm
      · exact Option.noConfusion h

theorem startLen_le (ext path u : List Char) (n : Nat)
    (hext5 : ext.length = 5) (hexthead : ext.head? = some '.')
    (hstart : startLen path = some n) (hdecomp : path = u ++ ext) :
    n + ext.length ≤ path.length := by
  obtain ⟨et, rfl⟩ : ∃ et, ext = '.' :: et := by
    cases ext with
    | nil => simp at hexthead
    | cons a t =>
      simp only [List.head?_cons, Option.some.injEq] at hexthead
      exact ⟨t, by rw [hexthead]⟩
  subst hdecomp
  cases u with
  | nil =>
    rw [List.nil_append] at hstart
    simp [startLen] at hstart
  | cons x us =>
    cases us with
    | nil =>
      simp only [List.cons_append, List.nil_append, startLen] at hstart
      by_cases hx : x = '/'
      · rw [if_pos hx] at hstart
        injection hstart with hn
        have he4 : et.length = 4 := by simpa using hext5
        simp only [List.cons_append, List.nil_append, List.length_cons, he4, ← hn]
        omega
      · rw [if_neg hx] at hstart
        have hcond : ¬ (x.isAlpha = true ∧ (('.' :: et) : List Char).head? = some ':') := by
          rintro ⟨-, hcol⟩
          simp only [List.head?_cons, Option.some.injEq] at hcol
          exact absurd hcol (by decide)
        rw [if_neg hcond] at hstart
        exact Option.noConfusion hstart
    | cons y vs =>
      have h12 := startLen_cases _ n hstart
      have : ((x :: y :: vs) ++ '.' :: et).length = vs.length + 2 + ('.' :: et).length := by
        simp [List.length_append, List.length_cons]
        omega
      rw [this]
      omega

theorem g1Ok_true_of (ext path u : List Char) (n : Nat)
    (hext5 : ext.length = 5) (hexthead : ext.head? = some '.')
    (hstart : startLen path = some n)
    (hdecomp : path = u ++ ext)
    (hnl : '\n' ∉ path) :
    g1Ok ext path = true := by
  have hsuf : isSuf ext path = true := (isSuf_iff _ _).mpr ⟨u, hdecomp⟩
  have hany := any_nl_false path hnl
  have hlen := startLen_le ext path u n hext5 hexthead hstart hdecomp
  unfold g1Ok
  rw [hstart]
  simp [hlen, hsuf, hany]

theorem g1Ok_false_of_not_suffix (ext g : List Char) (h : isSuf ext g = false) :
    g1Ok ext g = false := by
  unfold g1Ok
  cases hs : startLen g with
  | none => rfl
  | some n => simp [h]

theorem matchAlanAt_none_of_g1Ok (ext : List Char) (pr : List Char → Option Diagnostic)
    (line : List Char) (k : Nat) (h : g1Ok ext (line.take k) = false) :
    matchAlanAt ext pr line k = none := by
  simp [matchAlanAt, h]

theorem matchAlanAt_none_of_parse (ext : List Char) (pr : List Char → Option Diagnostic)
    (line : List Char) (k : Nat) (h : pr (line.drop k) = none) :
    matchAlanAt ext pr line k = none := by
  unfold matchAlanAt
  split
  · rw [h]
    rfl
  · rfl

theorem matchAlanAt_intended (ext : List Char) (pr : List Char → Option Diagnostic)
    (path rest : List Char) (hg : g1Ok ext path = true) :
    matchAlanAt ext pr (path ++ rest) path.length
      = (pr rest).map (fun d => (path, d)) := by
  have ht : (path ++ rest).take path.length = path := by
    rw [List.take_append_eq_append_take, List.take_length, Nat.sub_self]
    simp
  have hd : (path ++ rest).drop path.length = rest := by
    rw [List.drop_append_eq_append_drop, List.drop_length, Nat.sub_self]
    simp
  rw [matchAlanAt, ht, hd, if_pos hg]

theorem matchAlanAt_none_above (ext : List Char) (pr : List Char → Option Diagnostic)
    (path mid msg : List Char) (k : Nat)
    (hgt : path.length < k)
    (hfailsuf : isSuf ext (path ++ (mid ++ msg).take (k - path.length)) = false) :
    matchAlanAt ext pr (path ++ (mid ++ msg)) k = none := by
  apply matchAlanAt_none_of_g1Ok
  apply g1Ok_false_of_not_suffix
  have hshape : (path ++ (mid ++ msg)).take k
      = path ++ (mid ++ msg).take (k - path.length) := by
    rw [List.take_append_eq_append_take, List.take_of_length_le (le_of_lt hgt)]
  rw [hshape]
  exact hfailsuf

theorem dropPre_cons (c : Char) (s : List Char) : dropPre [c] (c :: s) = some s := by
  simp [dropPre]

theorem dropPre_to (s : List Char) :
    dropPre [' ', 't', 'o', ' '] (' ' :: 't' :: 'o' :: ' ' :: s) = some s := by
  simp [dropPre]

theorem dropPre_colon_space (s : List Char) :
    dropPre [':', ' '] (':' :: ' ' :: s) = some s := by
  simp [dropPre]

theorem parseSev_eq (sev s : List Char)
    (hsev : sev = "error".data ∨ sev = "warning".data ∨ sev = "info".data) :
    parseSev (sev ++ s) = some (sev, s) := by
  rcases hsev with rfl | rfl | rfl
  · unfold parseSev
    rw [dropPre_append]
  · unfold parseSev
    have h1 : dropPre "error".data ("warning".data ++ s) = none := by
      show dropPre ('e' :: "rror".data) ('w' :: ("arning".data ++ s)) = none
      exact dropPre_cons_ne _ _ _ _ (by decide)
    rw [h1, dropPre_append]
  · unfold parseSev
    have h1 : dropPre "error".data ("info".data ++ s) = none := by
      show dropPre ('e' :: "rror".data) ('i' :: ("nfo".data ++ s)) = none
      exact dropPre_cons_ne _ _ _ _ (by decide)
    have h2 : dropPre "warning".data ("info".data ++ s) = none := by
      show dropPre ('w' :: "arning".data) ('i' :: ("nfo".data ++ s)) = none
      exact dropPre_cons_ne _ _ _ _ (by decide)
    rw [h1, h2, dropPre_append]

theorem parseRangeRest_intended (ds1 ds2 ds3 ds4 sev msg : List Char)
    (h1 : ds1 ≠ []) (h1d : ∀ c ∈ ds1, c.isDigit = true)
    (h2 : ds2 ≠ []) (h2d : ∀ c ∈ ds2, c.isDigit = true)
    (h3 : ds3 ≠ []) (h3d : ∀ c ∈ ds3, c.isDigit = true)
    (h4 : ds4 ≠ []) (h4d : ∀ c ∈ ds4, c.isDigit = true)
    (hsev : sev = "error".data ∨ sev = "warning".data ∨ sev = "info".data)
    (hnlm : '\n' ∉ msg) :
    parseRangeRest (" from ".data ++ (ds1 ++ ':' :: (ds2 ++ ' ' :: 't' :: 'o' :: ' ' ::
        (ds3 ++ ':' :: (ds4 ++ ' ' :: (sev ++ ':' :: ' ' :: msg))))))
      = some ⟨⟨(parseIntDec ds1 : Int) - 1, (parseIntDec ds2 : Int) - 1,
               (parseIntDec ds3 : Int) - 1, (parseIntDec ds4 : Int) - 1⟩,
              msg, getSeverity sev⟩ := by
  have p1 := parseNum_append ds1 ':'
    (ds2 ++ ' ' :: 't' :: 'o' :: ' ' :: (ds3 ++ ':' :: (ds4 ++ ' ' :: (sev ++ ':' :: ' ' :: msg))))
    h1 h1d (by decide)
  have p2 := parseNum_append ds2 ' '
    ('t' :: 'o' :: ' ' :: (ds3 ++ ':' :: (ds4 ++ ' ' :: (sev ++ ':' :: ' ' :: msg))))
    h2 h2d (by decide)
  have p3 := parseNum_append ds3 ':' (ds4 ++ ' ' :: (sev ++ ':' :: ' ' :: msg))
    h3 h3d (by decide)
  have p4 := parseNum_append ds4 ' ' (sev ++ ':' :: ' ' :: msg) h4 h4d (by decide)
  have ps := parseSev_eq sev (':' :: ' ' :: msg) hsev
  simp only [parseRangeRest, Option.bind_eq_bind, dropPre_append, Option.some_bind,
    p1, dropPre_cons, p2, dropPre_to, p3, p4, ps, dropPre_colon_space]
  rw [dotStar_eq_self msg hnlm]

theorem parseLocatRest_intended (ds1 ds2 sev msg : List Char)
    (h1 : ds1 ≠ []) (h1d : ∀ c ∈ ds1, c.isDigit = true)
    (h2 : ds2 ≠ []) (h2d : ∀ c ∈ ds2, c.isDigit = true)
    (hsev : sev = "error".data ∨ sev = "warning".data ∨ sev = "info".data)
    (hnlm : '\n' ∉ msg) :
    parseLocatRest (" at ".data ++ (ds1 ++ ':' :: (ds2 ++ ' ' :: (sev ++ ':' :: ' ' :: msg))))
      = some ⟨⟨(parseIntDec ds1 : Int) - 1, (parseIntDec ds2 : Int) - 1,
               (parseIntDec ds1 : Int) - 1, (parseIntDec ds2 : Int) - 1⟩,
              msg, getSeverity sev⟩ := by
  have p1 := parseNum_append ds1 ':' (ds2 ++ ' ' :: (sev ++ ':' :: ' ' :: msg))
    h1 h1d (by decide)
  have p2 := parseNum_append ds2 ' ' (sev ++ ':' :: ' ' :: msg) h2 h2d (by decide)
  have ps := parseSev_eq sev (':' :: ' ' :: msg) hsev
  simp only [parseLocatRest, Option.bind_eq_bind, dropPre_append, Option.some_bind,
    p1, dropPre_cons, p2, ps, dropPre_colon_space]
  rw [dotStar_eq_self msg hnlm]

theorem parseSimpleRest_intended (sev msg : List Char)
    (hsev : sev = "error".data ∨ sev = "warning".data ∨ sev = "info".data)
    (hnlm : '\n' ∉ msg) :
    parseSimpleRest (' ' :: (sev ++ ':' :: ' ' :: msg))
      = some ⟨⟨0, 0, 0, 0⟩, msg, getSeverity sev⟩ := by
  have ps := parseSev_eq sev (':' :: ' ' :: msg) hsev
  simp only [parseSimpleRest, Option.bind_eq_bind, dropPre_cons, Option.some_bind,
    ps, dropPre_colon_space]
  rw [dotStar_eq_self msg hnlm]

theorem matchPat_intended (ext : List Char) (pr : List Char → Option Diagnostic)
    (path mid msg : List Char) (d : Diagnostic)
    (hg : g1Ok ext path = true)
    (hpr : pr (mid ++ msg) = some d)
    (hfail : ∀ j, 1 ≤ j → isSuf ext (path ++ (mid ++ msg).take j) = false) :
    matchPat ext pr (path ++ (mid ++ msg)) = some (path, d) := by
  unfold matchPat
  apply greedyFind_eq_of _ _ path.length
  · rw [List.length_append]
    omega
  · intro k hk1 hk2
    apply matchAlanAt_none_above ext pr path mid msg k hk1
    exact hfail (k - path.length) (by omega)
  · rw [matchAlanAt_intended ext pr path (mid ++ msg) hg, hpr]
    rfl

theorem not_mem_append₂ {c : Char} {a b : List Char} (ha : c ∉ a) (hb : c ∉ b) :
    c ∉ a ++ b :=
  fun h => (List.mem_append.mp h).elim ha hb

theorem not_mem_cons₂ {c d : Char} {b : List Char} (hd : c ≠ d) (hb : c ∉ b) :
    c ∉ d :: b := by
  intro h
  rcases List.mem_cons.mp h with h | h
  · exact hd h
  · exact hb h

theorem l_not_mem_digits (ds : List Char) (hd : ∀ c ∈ ds, c.isDigit = true) : 'l' ∉ ds :=
  fun hm => absurd (hd 'l' hm) (by decide)

theorem l_not_mem_sev (sev : List Char)
    (hsev : sev = "error".data ∨ sev = "warning".data ∨ sev = "info".data) : 'l' ∉ sev := by
  rcases hsev with rfl | rfl | rfl <;> decide

theorem matchPat_none_of_tab (ext : List Char) (pr : List Char → Option Diagnostic)
    (l : List Char) (h : tabStart l = true) : matchPat ext pr l = none := by
  have hh : l.head? = some '\t' := by
    have hb : (l.head? == some '\t') = true := h
    exact beq_iff_eq.mp hb
  obtain ⟨t, rfl⟩ : ∃ t, l = '\t' :: t := by
    cases l with
    | nil => simp at hh
    | cons c t =>
      simp only [List.head?_cons, Option.some.injEq] at hh
      exact ⟨t, by rw [hh]⟩
  unfold matchPat
  apply greedyFind_none
  intro k _
  apply matchAlanAt_none_of_g1Ok
  cases k with
  | zero => rfl
  | succ k' =>
    rw [List.take_succ_cons]
    unfold g1Ok
    have hs : startLen ('\t' :: List.take k' t) = none := by
      show (if ('\t' : Char) = '/' then some 1
            else if ('\t' : Char).isAlpha = true ∧ (List.take k' t).head? = some ':'
              then some 2 else none) = none
      rw [if_neg (by decide)]
      rw [if_neg (fun hc => absurd hc.1 (by decide))]
    rw [hs]

theorem scanStep_nil_of_tab (l : List Char) (h : tabStart l = true) :
    scanStep [] l = [] := by
  have h1 := matchPat_none_of_tab ".alan".data parseRangeRest l h
  have h2 := matchPat_none_of_tab ".alan".data parseLocatRest l h
  have h3 := matchPat_none_of_tab ".link".data parseSimpleRest l h
  have h4 := matchPat_none_of_tab ".alan".data parseSimpleRest l h
  unfold scanStep
  rw [h1, h2, h3, h4]
  simp

theorem seqIn_tail_false (n : List Char) (c : Char) (t : List Char)
    (h : seqIn n (c :: t) = false) : seqIn n t = false := by
  unfold seqIn at h
  exact (Bool.or_eq_false_iff.mp h).2

theorem bashMnt_eq_self (s : List Char) (h : seqIn "/mnt/".data s = false) :
    bashMnt s = s := by
  induction s using bashMnt.induct with
  | case1 => rfl
  | case2 c rest hlow ih =>
    exfalso
    have hocc := seqIn_of_decomp "/mnt/".data [] (c :: '/' :: rest)
      ('/' :: 'm' :: 'n' :: 't' :: '/' :: c :: '/' :: rest) rfl
    rw [h] at hocc
    exact Bool.noConfusion hocc
  | case3 c rest hlow ih =>
    rw [bashMnt, if_neg hlow]
    have h1 := seqIn_tail_false _ _ _ h
    rw [ih h1]
  | case4 c rest hne ih =>
    rw [bashMnt]
    · have h1 := seqIn_tail_false _ _ _ h
      rw [ih h1]
    · exact hne

theorem sp_not_mem_toSlashes (s : List Char) (h : ' ' ∉ s) : ' ' ∉ toSlashes s := by
  intro hm
  rw [toSlashes] at hm
  obtain ⟨x, hx, he⟩ := List.mem_map.mp hm
  by_cases hxb : x = '\\'
  · rw [if_pos hxb] at he
    exact absurd he (by decide)
  · rw [if_neg hxb] at he
    exact h (he ▸ hx)

theorem driveRepl_false_id (s : List Char) : driveRepl false s = s := by
  induction s with
  | nil => rfl
  | cons a rest ih =>
    cases rest with
    | nil => rfl
    | cons b r =>
      by_cases hab : a.isAlpha = true ∧ b = ':'
      · rw [driveRepl, if_pos hab, if_neg (by decide)]
        rw [hab.2]
      · rw [driveRepl, if_neg hab]
        rw [ih]

theorem resolveAlanRoot_nil (fs : List (List Char) → Bool) :
    resolveAlanRoot fs [] = .error () := by
  rw [resolveAlanRoot]
  rfl

theorem resolveAlanRoot_found (fs : List (List Char) → Bool) (d : List (List Char))
    (hne : d ≠ []) (hfs : fs d = true) : resolveAlanRoot fs d = .ok d := by
  rw [resolveAlanRoot, dif_neg hne, if_neg (by rw [hfs]; decide)]

theorem resolveAlanRoot_step (fs : List (List Char) → Bool) (d : List (List Char))
    (hne : d ≠ []) (hfs : fs d = false) :
    resolveAlanRoot fs d = resolveAlanRoot fs d.dropLast := by
  rw [resolveAlanRoot, dif_neg hne, if_pos hfs]

theorem resolveAlanRoot_error_of_no_marker (fs : List (List Char) → Bool)
    (cur : List (List Char))
    (h : ∀ d, d <+: cur → d ≠ [] → fs d = false) :
    resolveAlanRoot fs cur = .error () := by
  induction cur using List.reverseRecOn with
  | nil => exact resolveAlanRoot_nil fs
  | append_singleton xs x ih =>
    have hne : xs ++ [x] ≠ [] := by simp
    have hfs : fs (xs ++ [x]) = false := h _ List.prefix_rfl hne
    rw [resolveAlanRoot_step fs _ hne hfs, List.dropLast_concat]
    exact ih (fun d hd hdne => h d (hd.trans (List.prefix_append xs [x])) hdne)

/-! ## Claim theorems -/

/-- C1: an output line of the form
`<path ending in .alan> from <l1>:<c1> to <l2>:<c2> <severity>: <message>`
(path starting with `/` or a drive letter and colon, severity one of
error/warning/info, and the message not itself containing `.alan`, which
would extend the greedy path capture) produces exactly one Diagnostic for
that file whose range is the 1-based source coordinates each decremented by
one and whose message is the text after the severity colon. -/
theorem c1_range_diagnostic (path ds1 ds2 ds3 ds4 sev msg : List Char) (n : Nat)
    (hstart : startLen path = some n)
    (hsufp : ∃ u, path = u ++ ".alan".data)
    (hnlp : '\n' ∉ path)
    (h1 : ds1 ≠ []) (h1d : ∀ c ∈ ds1, c.isDigit = true)
    (h2 : ds2 ≠ []) (h2d : ∀ c ∈ ds2, c.isDigit = true)
    (h3 : ds3 ≠ []) (h3d : ∀ c ∈ ds3, c.isDigit = true)
    (h4 : ds4 ≠ []) (h4d : ∀ c ∈ ds4, c.isDigit = true)
    (hsev : sev = "error".data ∨ sev = "warning".data ∨ sev = "info".data)
    (hnlm : '\n' ∉ msg)
    (hmsg : seqIn ".alan".data msg = false) :
    scanLines [path ++ " from ".data ++ ds1 ++ [':'] ++ ds2 ++ " to ".data ++ ds3
        ++ [':'] ++ ds4 ++ [' '] ++ sev ++ [':', ' '] ++ msg]
      = [(path, ⟨⟨(parseIntDec ds1 : Int) - 1, (parseIntDec ds2 : Int) - 1,
                  (parseIntDec ds3 : Int) - 1, (parseIntDec ds4 : Int) - 1⟩,
          msg, getSeverity sev⟩)] := by
  obtain ⟨u, hu⟩ := hsufp
  have hg : g1Ok ".alan".data path = true :=
    g1Ok_true_of _ path u n (by decide) (by decide) hstart hu hnlp
  have hline : path ++ " from ".data ++ ds1 ++ [':'] ++ ds2 ++ " to ".data ++ ds3
      ++ [':'] ++ ds4 ++ [' '] ++ sev ++ [':', ' '] ++ msg
      = path ++ ((" from ".data ++ (ds1 ++ ':' :: (ds2 ++ ' ' :: 't' :: 'o' :: ' ' ::
        (ds3 ++ ':' :: (ds4 ++ ' ' :: (sev ++ [':', ' '])))))) ++ msg) := by
    simp [List.append_assoc]
  have hshape : (" from ".data ++ (ds1 ++ ':' :: (ds2 ++ ' ' :: 't' :: 'o' :: ' ' ::
        (ds3 ++ ':' :: (ds4 ++ ' ' :: (sev ++ [':', ' '])))))) ++ msg
      = " from ".data ++ (ds1 ++ ':' :: (ds2 ++ ' ' :: 't' :: 'o' :: ' ' ::
        (ds3 ++ ':' :: (ds4 ++ ' ' :: (sev ++ ':' :: ' ' :: msg))))) := by
    simp [List.append_assoc]
  have hparse : parseRangeRest ((" from ".data ++ (ds1 ++ ':' :: (ds2 ++ ' ' :: 't' ::
        'o' :: ' ' :: (ds3 ++ ':' :: (ds4 ++ ' ' :: (sev ++ [':', ' '])))))) ++ msg)
      = some ⟨⟨(parseIntDec ds1 : Int) - 1, (parseIntDec ds2 : Int) - 1,
               (parseIntDec ds3 : Int) - 1, (parseIntDec ds4 : Int) - 1⟩,
              msg, getSeverity sev⟩ := by
    rw [hshape]
    exact parseRangeRest_intended ds1 ds2 ds3 ds4 sev msg h1 h1d h2 h2d h3 h3d h4 h4d
      hsev hnlm
  have hfail : ∀ j, 1 ≤ j → isSuf ".alan".data (path ++ (((" from ".data ++ (ds1 ++
        ':' :: (ds2 ++ ' ' :: 't' :: 'o' :: ' ' :: (ds3 ++ ':' :: (ds4 ++ ' ' ::
        (sev ++ [':', ' '])))))) ++ msg)).take j) = false := by
    intro j hj
    apply no_alan_suffix_take path _ msg j hj
    · rfl
    · exact ⟨" from ".data ++ (ds1 ++ ':' :: (ds2 ++ ' ' :: 't' :: 'o' :: ' ' ::
        (ds3 ++ ':' :: (ds4 ++ ' ' :: (sev ++ [':']))))), by simp [List.append_assoc]⟩
    · apply not_mem_append₂ (by decide)
      apply not_mem_append₂ (l_not_mem_digits ds1 h1d)
      apply not_mem_cons₂ (by decide)
      apply not_mem_append₂ (l_not_mem_digits ds2 h2d)
      apply not_mem_cons₂ (by decide)
      apply not_mem_cons₂ (by decide)
      apply not_mem_cons₂ (by decide)
      apply not_mem_cons₂ (by decide)
      apply not_mem_append₂ (l_not_mem_digits ds3 h3d)
      apply not_mem_cons₂ (by decide)
      apply not_mem_append₂ (l_not_mem_digits ds4 h4d)
      apply not_mem_cons₂ (by decide)
      apply not_mem_append₂ (l_not_mem_sev sev hsev)
      decide
    · exact hmsg
  have hmatch := matchPat_intended ".alan".data parseRangeRest path
    (" from ".data ++ (ds1 ++ ':' :: (ds2 ++ ' ' :: 't' :: 'o' :: ' ' ::
      (ds3 ++ ':' :: (ds4 ++ ' ' :: (sev ++ [':', ' ']))))))
    msg _ hg hparse hfail
  rw [hline]
  simp only [scanLines, List.foldl_cons, List.foldl_nil, scanStep, hmatch,
    List.nil_append]

/-- Witness for C1: the spec's example line
`/home/x/foo.alan from 3:5 to 3:10 error: bad token` yields one Diagnostic
for `/home/x/foo.alan`, severity Error, range start (2,4), end (2,9),
message `bad token`. -/
theorem c1_range_diagnostic_witness :
    scanLines ["/home/x/foo.alan from 3:5 to 3:10 error: bad token".data]
      = [("/home/x/foo.alan".data, ⟨⟨2, 4, 2, 9⟩, "bad token".data, .Error⟩)] :=
  c1_range_diagnostic "/home/x/foo.alan".data "3".data "5".data "3".data "10".data
    "error".data "bad token".data 1 (by decide) ⟨"/home/x/foo".data, by decide⟩
    (by decide) (by decide) (by decide) (by decide) (by decide) (by decide)
    (by decide) (by decide) (by decide) (Or.inl rfl) (by decide) (by decide)

/-- C5: an output line of the form `<path>.alan at <line>:<col> <severity>:
<message>` (path without spaces, message not containing `.alan`) produces
exactly one Diagnostic whose range start and end are both the single
position (line-1, col-1). -/
theorem c5_point_diagnostic (path ds1 ds2 sev msg : List Char) (n : Nat)
    (hstart : startLen path = some n)
    (hsufp : ∃ u, path = u ++ ".alan".data)
    (hnlp : '\n' ∉ path)
    (hsp : ' ' ∉ path)
    (h1 : ds1 ≠ []) (h1d : ∀ c ∈ ds1, c.isDigit = true)
    (h2 : ds2 ≠ []) (h2d : ∀ c ∈ ds2, c.isDigit = true)
    (hsev : sev = "error".data ∨ sev = "warning".data ∨ sev = "info".data)
    (hnlm : '\n' ∉ msg)
    (hmsg : seqIn ".alan".data msg = false) :
    scanLines [path ++ " at ".data ++ ds1 ++ [':'] ++ ds2 ++ [' '] ++ sev
        ++ [':', ' '] ++ msg]
      = [(path, ⟨⟨(parseIntDec ds1 : Int) - 1, (parseIntDec ds2 : Int) - 1,
                  (parseIntDec ds1 : Int) - 1, (parseIntDec ds2 : Int) - 1⟩,
          msg, getSeverity sev⟩)] := by
  obtain ⟨u, hu⟩ := hsufp
  have hg : g1Ok ".alan".data path = true :=
    g1Ok_true_of _ path u n (by decide) (by decide) hstart hu hnlp
  have hline : path ++ " at ".data ++ ds1 ++ [':'] ++ ds2 ++ [' '] ++ sev
      ++ [':', ' '] ++ msg
      = path ++ ((" at ".data ++ (ds1 ++ ':' :: (ds2 ++ ' ' ::
          (sev ++ [':', ' '])))) ++ msg) := by
    simp [List.append_assoc]
  have hshape : (" at ".data ++ (ds1 ++ ':' :: (ds2 ++ ' ' :: (sev ++ [':', ' '])))) ++ msg
      = " at ".data ++ (ds1 ++ ':' :: (ds2 ++ ' ' :: (sev ++ ':' :: ' ' :: msg))) := by
    simp [List.append_assoc]
  have hparse : parseLocatRest ((" at ".data ++ (ds1 ++ ':' :: (ds2 ++ ' ' ::
        (sev ++ [':', ' '])))) ++ msg)
      = some ⟨⟨(parseIntDec ds1 : Int) - 1, (parseIntDec ds2 : Int) - 1,
               (parseIntDec ds1 : Int) - 1, (parseIntDec ds2 : Int) - 1⟩,
              msg, getSeverity sev⟩ := by
    rw [hshape]
    exact parseLocatRest_intended ds1 ds2 sev msg h1 h1d h2 h2d hsev hnlm
  have hfail : ∀ j, 1 ≤ j → isSuf ".alan".data (path ++ (((" at ".data ++ (ds1 ++
        ':' :: (ds2 ++ ' ' :: (sev ++ [':', ' '])))) ++ msg)).take j) = false := by
    intro j hj
    apply no_alan_suffix_take path _ msg j hj
    · rfl
    · exact ⟨" at ".data ++ (ds1 ++ ':' :: (ds2 ++ ' ' :: (sev ++ [':']))),
        by simp [List.append_assoc]⟩
    · apply not_mem_append₂ (by decide)
      apply not_mem_append₂ (l_not_mem_digits ds1 h1d)
      apply not_mem_cons₂ (by decide)
      apply not_mem_append₂ (l_not_mem_digits ds2 h2d)
      apply not_mem_cons₂ (by decide)
      apply not_mem_append₂ (l_not_mem_sev sev hsev)
      decide
    · exact hmsg
  have hdrop0 : (path ++ ((" at ".data ++ (ds1 ++ ':' :: (ds2 ++ ' ' ::
        (sev ++ [':', ' '])))) ++ msg)).drop path.length
      = (" at ".data ++ (ds1 ++ ':' :: (ds2 ++ ' ' :: (sev ++ [':', ' '])))) ++ msg := by
    rw [List.drop_append_eq_append_drop, List.drop_length, Nat.sub_self,
      List.drop_zero, List.nil_append]
  have hpr0 : parseRangeRest ((" at ".data ++ (ds1 ++ ':' :: (ds2 ++ ' ' ::
        (sev ++ [':', ' '])))) ++ msg) = none := by
    have hdp : dropPre " from ".data ((" at ".data ++ (ds1 ++ ':' :: (ds2 ++ ' ' ::
        (sev ++ [':', ' '])))) ++ msg) = none := by
      show dropPre (' ' :: "from ".data)
        (' ' :: ('a' :: 't' :: ' ' :: ((ds1 ++ ':' :: (ds2 ++ ' ' ::
          (sev ++ [':', ' ']))) ++ msg))) = none
      simp [dropPre]
    simp only [parseRangeRest, Option.bind_eq_bind, hdp, Option.none_bind]
  have hprk : ∀ k, k < path.length → parseRangeRest ((path ++ ((" at ".data ++
        (ds1 ++ ':' :: (ds2 ++ ' ' :: (sev ++ [':', ' '])))) ++ msg)).drop k)
      = none := by
    intro k hk
    have hz : k - path.length = 0 := by omega
    have hdropk : (path ++ ((" at ".data ++ (ds1 ++ ':' :: (ds2 ++ ' ' ::
        (sev ++ [':', ' '])))) ++ msg)).drop k
        = path.drop k ++ ((" at ".data ++ (ds1 ++ ':' :: (ds2 ++ ' ' ::
          (sev ++ [':', ' '])))) ++ msg) := by
      rw [List.drop_append_eq_append_drop, hz, List.drop_zero]
    obtain ⟨c, t, hct⟩ : ∃ c t, path.drop k = c :: t := by
      cases hd : path.drop k with
      | nil =>
        exfalso
        have hld := List.length_drop k path
        rw [hd] at hld
        simp only [List.length_nil] at hld
        omega
      | cons c t => exact ⟨c, t, rfl⟩
    have hcmem : c ∈ path :=
      List.drop_subset k path (by rw [hct]; exact List.mem_cons_self c t)
    have hcne : ' ' ≠ c := fun he => hsp (he ▸ hcmem)
    have hdp : dropPre " from ".data (path.drop k ++ ((" at ".data ++ (ds1 ++
        ':' :: (ds2 ++ ' ' :: (sev ++ [':', ' '])))) ++ msg)) = none := by
      rw [hct]
      show dropPre (' ' :: "from ".data)
        (c :: (t ++ ((" at ".data ++ (ds1 ++ ':' :: (ds2 ++ ' ' ::
          (sev ++ [':', ' '])))) ++ msg))) = none
      exact dropPre_cons_ne _ _ _ _ hcne
    rw [hdropk]
    simp only [parseRangeRest, Option.bind_eq_bind, hdp, Option.none_bind]
  have hrange : matchPat ".alan".data parseRangeRest (path ++ ((" at ".data ++
      (ds1 ++ ':' :: (ds2 ++ ' ' :: (sev ++ [':', ' '])))) ++ msg)) = none := by
    unfold matchPat
    apply greedyFind_none
    intro k _
    rcases lt_trichotomy k path.length with hlt | heq | hgt
    · exact matchAlanAt_none_of_parse _ _ _ _ (hprk k hlt)
    · subst heq
      apply matchAlanAt_none_of_parse
      rw [hdrop0]
      exact hpr0
    · apply matchAlanAt_none_above _ _ _ _ _ _ hgt
      exact hfail (k - path.length) (by omega)
  have hmatch := matchPat_intended ".alan".data parseLocatRest path
    (" at ".data ++ (ds1 ++ ':' :: (ds2 ++ ' ' :: (sev ++ [':', ' ']))))
    msg _ hg hparse hfail
  rw [hline]
  simp only [scanLines, List.foldl_cons, List.foldl_nil, scanStep, hrange, hmatch,
    List.nil_append]

/-- Witness for C5: the spec's example line
`/home/x/foo.alan at 10:1 warning: unused` yields one Diagnostic with
start and end both (9,0) and severity Warning. -/
theorem c5_point_diagnostic_witness :
    scanLines ["/home/x/foo.alan at 10:1 warning: unused".data]
      = [("/home/x/foo.alan".data, ⟨⟨9, 0, 9, 0⟩, "unused".data, .Warning⟩)] :=
  c5_point_diagnostic "/home/x/foo.alan".data "10".data "1".data
    "warning".data "unused".data 1 (by decide) ⟨"/home/x/foo".data, by decide⟩
    (by decide) (by decide) (by decide) (by decide) (by decide) (by decide)
    (Or.inr (Or.inl rfl)) (by decide) (by decide)

/-- C2: during a scan, a line that matches none of the four diagnostic
patterns but begins with a tab, arriving when at least one diagnostic has
already been produced, has its full text (including the tab) appended,
newline-prefixed, to the most recently created Diagnostic only
(`appendToLast` rewrites the last entry and keeps every earlier one); and
the two consecutive lines `/x/foo.link error: broken` and tab +
`see also bar.alan` leave that Diagnostic's message equal to
`broken` + newline + tab + `see also bar.alan`. -/
theorem c2_continuation :
    (∀ (diags : List (List Char × Diagnostic)) (tl : List Char),
        diags ≠ [] → matchesAnyPat tl = false → tabStart tl = true →
        scanStep diags tl = appendToLast diags tl)
    ∧ parseOutput "/x/foo.link error: broken\n\tsee also bar.alan".data
      = [("/x/foo.link".data,
          ⟨⟨0, 0, 0, 0⟩, "broken\n\tsee also bar.alan".data, .Error⟩)] := by
  constructor
  · intro diags tl hne hnm ht
    rw [matchesAnyPat] at hnm
    have h1 : matchPat ".alan".data parseRangeRest tl = none := by
      cases h : matchPat ".alan".data parseRangeRest tl with
      | none => rfl
      | some v => rw [h] at hnm; simp at hnm
    have h2 : matchPat ".alan".data parseLocatRest tl = none := by
      cases h : matchPat ".alan".data parseLocatRest tl with
      | none => rfl
      | some v => rw [h] at hnm; simp at hnm
    have h3 : matchPat ".link".data parseSimpleRest tl = none := by
      cases h : matchPat ".link".data parseSimpleRest tl with
      | none => rfl
      | some v => rw [h] at hnm; simp at hnm
    have h4 : matchPat ".alan".data parseSimpleRest tl = none := by
      cases h : matchPat ".alan".data parseSimpleRest tl with
      | none => rfl
      | some v => rw [h] at hnm; simp at hnm
    unfold scanStep
    rw [h1, h2, h3, h4]
    have hie : diags.isEmpty = false := by
      cases diags with
      | nil => exact absurd rfl hne
      | cons a l => rfl
    simp [hie, ht]
  · decide

/-- Witness for C2: a tab-led continuation line appends to the only
diagnostic produced so far. -/
theorem c2_continuation_witness :
    scanStep [("/x/a.link".data, ⟨⟨0, 0, 0, 0⟩, "m".data, .Error⟩)] "\tmore".data
      = [("/x/a.link".data, ⟨⟨0, 0, 0, 0⟩, "m\n\tmore".data, .Error⟩)] := by
  have h := c2_continuation.1 [("/x/a.link".data, ⟨⟨0, 0, 0, 0⟩, "m".data, .Error⟩)]
    "\tmore".data (by decide) (by decide) (by decide)
  rw [h]
  decide

/-- C10: a tab-led line with no previously created diagnostic (empty
accumulator) matches no pattern and leaves the accumulator unchanged, and a
scan consisting solely of tab-led lines yields no diagnostics. -/
theorem c10_tab_without_current :
    (∀ l : List Char, tabStart l = true → scanStep [] l = [])
    ∧ (∀ lines : List (List Char), (∀ l ∈ lines, tabStart l = true) →
        scanLines lines = []) := by
  constructor
  · exact scanStep_nil_of_tab
  · intro lines
    induction lines with
    | nil => intro _; rfl
    | cons l ls ih =>
      intro hall
      have hstep := scanStep_nil_of_tab l (hall l (List.mem_cons_self l ls))
      show List.foldl scanStep [] (l :: ls) = []
      rw [List.foldl_cons, hstep]
      exact ih (fun x hx => hall x (List.mem_cons_of_mem l hx))

/-- Witness for C10: a scan of two tab-led lines yields no diagnostics. -/
theorem c10_tab_without_current_witness :
    scanLines ["\tfirst".data, "\tsecond".data] = [] :=
  c10_tab_without_current.2 ["\tfirst".data, "\tsecond".data] (by decide)

/-- C6: the severity-token mapping is total: `error` maps to Error,
`warning` maps to Warning, and every other string — including `info` —
maps to Information. -/
theorem c6_severity_mapping :
    getSeverity "error".data = .Error
    ∧ getSeverity "warning".data = .Warning
    ∧ getSeverity "info".data = .Information
    ∧ (∀ s : List Char, s ≠ "error".data → s ≠ "warning".data →
        getSeverity s = .Information) := by
  refine ⟨by decide, by decide, by decide, ?_⟩
  intro s h1 h2
  rw [getSeverity, if_neg h1, if_neg h2]

/-- Witness for C6: an unrecognized severity token maps to Information. -/
theorem c6_severity_mapping_witness :
    getSeverity "fatal".data = DiagnosticSeverity.Information :=
  c6_severity_mapping.2.2.2 "fatal".data (by decide) (by decide)

/-- C9: under any non-WSL interpreter the forward path conversion only
replaces backslashes and escapes spaces (the drive-letter rewrite is the
identity), and the inverse conversion is the identity on its input. -/
theorem c9_non_wsl_conversion (s shell : List Char) (h : isWsl shell = false) :
    pathToBashPath s shell = escSpaces (toSlashes s)
    ∧ bashPathsToWinPaths s shell = s := by
  constructor
  · rw [pathToBashPath, h, driveRepl_false_id]
  · rw [bashPathsToWinPaths, h]
    simp

/-- Witness for C9: under `/bin/bash` a drive-letter path keeps its drive
prefix, backslashes become slashes, spaces get escaped, and captured output
is left unchanged. -/
theorem c9_non_wsl_conversion_witness :
    pathToBashPath "C:\\a b.alan".data linux_osx_bash = "C:/a\\ b.alan".data
    ∧ bashPathsToWinPaths "/mnt/c/x".data linux_osx_bash = "/mnt/c/x".data := by
  have h1 := c9_non_wsl_conversion "C:\\a b.alan".data linux_osx_bash (by decide)
  have h2 := c9_non_wsl_conversion "/mnt/c/x".data linux_osx_bash (by decide)
  exact ⟨h1.1.trans (by decide), h2.2⟩

/-- C3 counterexample: the WSL round trip does not return the original
path: `c:\dir\f.alan` comes back as `c:/dir/f.alan` — backslash separators
are not restored by the inverse conversion. -/
theorem c3_roundtrip_counterexample :
    bashPathsToWinPaths (pathToBashPath "c:\\dir\\f.alan".data wsl_bash) wsl_bash
      ≠ "c:\\dir\\f.alan".data := by
  decide

/-- C3 amended: for a path with a single lowercase drive letter, a colon
and backslash separators, no spaces, and no `/mnt/` occurrence in its
slash-converted remainder, the WSL forward conversion followed by the
inverse returns the original path with each backslash replaced by a
forward slash (not the original path itself). -/
theorem c3_roundtrip_amended (c : Char) (rest : List Char)
    (hc : c.isLower = true)
    (hsp : ' ' ∉ rest)
    (hmnt : seqIn "/mnt/".data (toSlashes rest) = false) :
    bashPathsToWinPaths (pathToBashPath (c :: ':' :: '\\' :: rest) wsl_bash) wsl_bash
      = c :: ':' :: '/' :: toSlashes rest := by
  have hwsl : isWsl wsl_bash = true := by decide
  have halpha : c.isAlpha = true := by
    rw [Char.isAlpha, hc, Bool.or_true]
  have hdrive : driveRepl true (c :: ':' :: '\\' :: rest)
      = '/' :: 'm' :: 'n' :: 't' :: '/' :: c :: '\\' :: rest := by
    rw [driveRepl, if_pos ⟨halpha, rfl⟩, if_pos rfl]
  have hcb : c ≠ '\\' := by
    intro he
    rw [he] at hc
    exact absurd hc (by decide)
  have hslash : toSlashes ('/' :: 'm' :: 'n' :: 't' :: '/' :: c :: '\\' :: rest)
      = '/' :: 'm' :: 'n' :: 't' :: '/' :: c :: '/' :: toSlashes rest := by
    simp [toSlashes, hcb]
  have hcs : (' ' : Char) ≠ c := by
    intro he
    rw [← he] at hc
    exact absurd hc (by decide)
  have hsp2 : ' ' ∉ ('/' :: 'm' :: 'n' :: 't' :: '/' :: c :: '/' :: toSlashes rest) := by
    apply not_mem_cons₂ (by decide)
    apply not_mem_cons₂ (by decide)
    apply not_mem_cons₂ (by decide)
    apply not_mem_cons₂ (by decide)
    apply not_mem_cons₂ (by decide)
    apply not_mem_cons₂ hcs
    apply not_mem_cons₂ (by decide)
    exact sp_not_mem_toSlashes rest hsp
  have hforward : pathToBashPath (c :: ':' :: '\\' :: rest) wsl_bash
      = '/' :: 'm' :: 'n' :: 't' :: '/' :: c :: '/' :: toSlashes rest := by
    rw [pathToBashPath, hwsl, hdrive, hslash, escSpaces_eq_self _ hsp2]
  rw [hforward, bashPathsToWinPaths, if_pos hwsl]
  rw [bashMnt, if_pos hc, bashMnt_eq_self _ hmnt]

/-- Witness for C3's amended claim: `c:\dir\f.alan` round-trips to
`c:/dir/f.alan`. -/
theorem c3_roundtrip_amended_witness :
    bashPathsToWinPaths (pathToBashPath "c:\\dir\\f.alan".data wsl_bash) wsl_bash
      = "c:/dir/f.alan".data := by
  have h := c3_roundtrip_amended 'c' "dir\\f.alan".data (by decide) (by decide)
    (by decide)
  exact h.trans (by decide)

/-- C4: the root locator rejects at the filesystem root (before checking
any marker), returns a non-root directory containing the marker, recurses
to the parent otherwise; consequently it rejects when no non-root ancestor
has the marker, and resolves to a marker-bearing ancestor three levels up
when the levels between lack the marker. -/
theorem c4_root_locator (fs : List (List Char) → Bool) :
    resolveAlanRoot fs [] = .error ()
    ∧ (∀ d : List (List Char), d ≠ [] → fs d = true → resolveAlanRoot fs d = .ok d)
    ∧ (∀ d : List (List Char), d ≠ [] → fs d = false →
        resolveAlanRoot fs d = resolveAlanRoot fs d.dropLast)
    ∧ (∀ cur : List (List Char), (∀ d, d <+: cur → d ≠ [] → fs d = false) →
        resolveAlanRoot fs cur = .error ())
    ∧ (∀ (d : List (List Char)) (a b c : List Char), d ≠ [] → fs d = true →
        fs (d ++ [a]) = false → fs (d ++ [a, b]) = false →
        fs (d ++ [a, b, c]) = false →
        resolveAlanRoot fs (d ++ [a, b, c]) = .ok d) := by
  refine ⟨resolveAlanRoot_nil fs, resolveAlanRoot_found fs, resolveAlanRoot_step fs,
    resolveAlanRoot_error_of_no_marker fs, ?_⟩
  intro d a b c hd hfsd hc1 hc2 hc3
  have e3 : d ++ [a, b, c] = (d ++ [a, b]) ++ [c] := by simp
  have e2 : d ++ [a, b] = (d ++ [a]) ++ [b] := by simp
  rw [e3, resolveAlanRoot_step fs _ (by simp) (by rw [← e3]; exact hc3),
    List.dropLast_concat]
  rw [e2, resolveAlanRoot_step fs _ (by simp) (by rw [← e2]; exact hc2),
    List.dropLast_concat]
  rw [resolveAlanRoot_step fs _ (by simp) hc1, List.dropLast_concat]
  exact resolveAlanRoot_found fs d hd hfsd

/-- Witness for C4: starting three segments below the only marker-bearing
directory resolves to that ancestor. -/
theorem c4_root_locator_witness :
    resolveAlanRoot (fun d => d == [['r']]) [['r'], ['a'], ['b'], ['c']]
      = .ok [['r']] := by
  have h := (c4_root_locator (fun d => d == [['r']])).2.2.2.2 [['r']] ['a'] ['b'] ['c']
    (by decide) (by decide) (by decide) (by decide) (by decide)
  exact h

/-- C7: the package task is in the built catalog (workspace open, root
resolved) exactly when the active file's basename is `connections.alan`,
while fetch, build and generate-migration are always present. -/
theorem c7_package_task (ws shell active root : List Char) :
    ((∃ t ∈ getTasksList (some ws) shell active (.ok root),
        t.definition.task = "package".data)
      ↔ basename active = "connections.alan".data)
    ∧ (∃ t ∈ getTasksList (some ws) shell active (.ok root),
        t.definition.task = "fetch".data)
    ∧ (∃ t ∈ getTasksList (some ws) shell active (.ok root),
        t.definition.task = "build".data)
    ∧ (∃ t ∈ getTasksList (some ws) shell active (.ok root),
        t.definition.task = "generate migration".data) := by
  by_cases hb : basename active = "connections.alan".data <;>
    simp [getTasksList, hb]

/-- C8: an explicit non-empty configured interpreter is returned unchanged;
on win32 the probes run in order wsl.exe (answering `wsl_bash`), 64-bit Git
bash, 32-bit Git bash, with an error notification and an undefined result
when all fail; other platforms get `/bin/bash` without probing. -/
theorem c8_shell_resolver :
    (∀ (s platform : List Char) (fsExists : List Char → Bool), s ≠ [] →
        resolveBashShell (some s) platform fsExists = ⟨some s, false⟩)
    ∧ (∀ (config : Option (List Char)) (fsExists : List Char → Bool),
        truthyString config = false →
        (fsExists wsl = true →
          resolveBashShell config "win32".data fsExists = ⟨some wsl_bash, false⟩)
        ∧ (fsExists wsl = false → fsExists git_bash_x64 = true →
          resolveBashShell config "win32".data fsExists = ⟨some git_bash_x64, false⟩)
        ∧ (fsExists wsl = false → fsExists git_bash_x64 = false →
            fsExists git_bash_x32 = true →
          resolveBashShell config "win32".data fsExists = ⟨some git_bash_x32, false⟩)
        ∧ (fsExists wsl = false → fsExists git_bash_x64 = false →
            fsExists git_bash_x32 = false →
          resolveBashShell config "win32".data fsExists = ⟨none, true⟩))
    ∧ (∀ (config : Option (List Char)) (platform : List Char)
          (fsExists : List Char → Bool),
        truthyString config = false → platform ≠ "win32".data →
        resolveBashShell config platform fsExists = ⟨some linux_osx_bash, false⟩) := by
  refine ⟨?_, ?_, ?_⟩
  · intro s p fs hne
    have ht : truthyString (some s) = true := by
      rw [truthyString]
      cases s with
      | nil => exact absurd rfl hne
      | cons a t => rfl
    simp [resolveBashShell, ht]
  · intro config fs hcf
    refine ⟨fun h1 => ?_, fun h1 h2 => ?_, fun h1 h2 h3 => ?_, fun h1 h2 h3 => ?_⟩
    · simp [resolveBashShell, hcf, h1]
    · simp [resolveBashShell, hcf, h1, h2]
    · simp [resolveBashShell, hcf, h1, h2, h3]
    · simp [resolveBashShell, hcf, h1, h2, h3]
  · intro config platform fs hcf hp
    simp [resolveBashShell, hcf, hp]

/-- Witness for C8: with no configuration on a non-Windows platform the
resolver answers `/bin/bash` without probing. -/
theorem c8_shell_resolver_witness :
    resolveBashShell none "darwin".data (fun _ => false)
      = ⟨some linux_osx_bash, false⟩ :=
  c8_shell_resolver.2.2 none "darwin".data (fun _ => false) (by decide) (by decide)

end AlanTasks
